import Mathlib

/-
  Verification of the aggre-gate cryptocurrency order-book aggregator.

  Shallow embedding of the Rust sources:
    - src/aggregator-core/src/types.rs        (data model)
    - src/aggregator-core/src/aggregator.rs   (price-level processor, stop)
    - src/analysis-tools/src/arbitrage.rs     (ArbitrageDetector)
    - src/orderbook-implementations/src/btree_set.rs (BTreeOrderBook)
    - src/orderbook-implementations/src/hashmap.rs   (HashMapOrderBook)
    - src/exchange-connectors/src/binance.rs  (Binance::process_depth_update)

  Modelling conventions:
    - Rust f64 prices and quantities are embedded as exact rationals.  The
      sources never produce NaN or infinities on the paths modelled here, and
      every comparison in the sources goes through partial_cmp with an
      unwrap_or(Equal) fallback that is only exercised by NaN, so the rational
      embedding is faithful on all real inputs.
    - Rust String values are embedded as List Char.
    - chrono timestamps (always produced by Utc::now() in the sources) carry no
      information that any verified property depends on; they are omitted from
      the embedded records.
    - HashMap and Vec values are embedded as lists; HashMap iteration order is
      an arbitrary list order, which no verified property depends on.
-/

namespace AggreGate

/-
  Batteries marks the rational-number field operations irreducible, which
  blocks tactic-level evaluation of the embedded definitions on concrete
  inputs; they are restored to their normal reducibility for this file so
  that concrete runs of the embedded code can be settled by decide.
-/
set_option allowUnsafeReducibility true

attribute [local semireducible] Rat.add Rat.sub Rat.mul Rat.div Rat.inv Rat.blt

/-- Exchange enumeration from aggregator-core/src/types.rs. -/
inductive Exchange where
  | Binance
  | Bitstamp
  | Bybit
  | Kraken
  | Coinbase
  | CryptoDotCom
  | OKX
deriving DecidableEq, Repr

/-- Lowercase canonical name of an exchange, from the Display impl for
Exchange in types.rs. -/
def Exchange.name : Exchange → List Char
  | .Binance => [ 'b', 'i', 'n', 'a', 'n', 'c', 'e']
  | .Bitstamp => [ 'b', 'i', 't', 's', 't', 'a', 'm', 'p']
  | .Bybit => [ 'b', 'y', 'b', 'i', 't']
  | .Kraken => [ 'k', 'r', 'a', 'k', 'e', 'n']
  | .Coinbase => [ 'c', 'o', 'i', 'n', 'b', 'a', 's', 'e']
  | .CryptoDotCom => [ 'c', 'r', 'y', 'p', 't', 'o', '_', 'd', 'o', 't', '_', 'c', 'o', 'm']
  | .OKX => [ 'o', 'k', 'x']

/-- Lowercasing of a string, modelling str::to_lowercase on the ASCII
identifiers involved. -/
def toLowerStr (s : List Char) : List Char := s.map Char.toLower

/-- Uppercasing of a string, modelling str::to_uppercase on the ASCII
identifiers involved. -/
def toUpperStr (s : List Char) : List Char := s.map Char.toUpper

/-- FromStr for Exchange in types.rs: lowercase the input and match against
the seven canonical names; an unknown name yields a Parsing error, embedded
here as none. -/
def Exchange.fromStr (s : List Char) : Option Exchange :=
  let t := toLowerStr s
  if t = Exchange.name .Binance then some .Binance
  else if t = Exchange.name .Bitstamp then some .Bitstamp
  else if t = Exchange.name .Bybit then some .Bybit
  else if t = Exchange.name .Kraken then some .Kraken
  else if t = Exchange.name .Coinbase then some .Coinbase
  else if t = Exchange.name .CryptoDotCom then some .CryptoDotCom
  else if t = Exchange.name .OKX then some .OKX
  else none

/-- PriceLevel from types.rs (timestamp omitted, see header). -/
structure PriceLevel where
  price : ℚ
  quantity : ℚ
  exchange : Exchange
deriving DecidableEq, Repr

/-- Bid from types.rs (timestamp omitted). -/
structure Bid where
  price : ℚ
  quantity : ℚ
  exchange : Exchange
deriving DecidableEq, Repr

/-- Ask from types.rs (timestamp omitted). -/
structure Ask where
  price : ℚ
  quantity : ℚ
  exchange : Exchange
deriving DecidableEq, Repr

/-- Total comparison on rationals, modelling f64 partial_cmp followed by
unwrap_or(Equal): on non-NaN values partial_cmp is exactly this three-way
comparison. -/
def qcompare (x y : ℚ) : Ordering :=
  if x < y then .lt else if x = y then .eq else .gt

/-- Ord::cmp for Bid in types.rs: other.price.partial_cmp(self.price)
followed by unwrap_or(Equal), i.e. descending by price and by price only. -/
def Bid.cmp (self other : Bid) : Ordering := qcompare other.price self.price

/-- Ord::cmp for Ask in types.rs: self.price.partial_cmp(other.price)
followed by unwrap_or(Equal), i.e. ascending by price and by price only. -/
def Ask.cmp (self other : Ask) : Ordering := qcompare self.price other.price

/-- TradingPair from types.rs. -/
structure TradingPair where
  base : List Char
  quote : List Char
deriving DecidableEq, Repr

/-- TradingPair::new from types.rs: both components are uppercased. -/
def TradingPair.mkNew (base quote : List Char) : TradingPair :=
  ⟨toUpperStr base, toUpperStr quote⟩

/-- Display for TradingPair in types.rs: the canonical textual form
BASE/QUOTE. -/
def TradingPair.render (p : TradingPair) : List Char :=
  p.base ++ '/' :: p.quote

/-- Splitting of a string on the slash character, modelling
str::split applied with the separator used by TradingPair::from_str. -/
def splitOnSlash : List Char → List (List Char)
  | [] => [[]]
  | c :: rest =>
    if c = '/' then [] :: splitOnSlash rest
    else
      match splitOnSlash rest with
      | [] => [[c]]
      | g :: gs => (c :: g) :: gs

/-- FromStr for TradingPair in types.rs: split on the slash, require exactly
two parts, and build the pair with TradingPair::new; any other shape yields a
Parsing error, embedded here as none. -/
def TradingPair.fromStr (s : List Char) : Option TradingPair :=
  match splitOnSlash s with
  | [b, q] => some (TradingPair.mkNew b q)
  | _ => none

/-- Summary from types.rs (timestamp omitted). -/
structure Summary where
  symbol : List Char
  spread : ℚ
  bids : List PriceLevel
  asks : List PriceLevel
deriving DecidableEq, Repr

/-- PriceLevelUpdate from types.rs (id and timestamp omitted: the uuid and
the chrono timestamp influence no verified property). -/
structure PriceLevelUpdate where
  symbol : List Char
  exchange : Exchange
  bids : List Bid
  asks : List Ask
deriving DecidableEq, Repr

/-- ArbitrageOpportunity from types.rs (timestamp omitted). -/
structure ArbitrageOpportunity where
  buyExchange : Exchange
  sellExchange : Exchange
  symbol : List Char
  buyPrice : ℚ
  sellPrice : ℚ
  profitPercentage : ℚ
  volume : ℚ
deriving DecidableEq, Repr

/-- ArbitrageDetector from analysis-tools/src/arbitrage.rs. -/
structure ArbitrageDetector where
  minProfitThreshold : ℚ
  minVolumeThreshold : ℚ
deriving DecidableEq, Repr

/-- One step of the best-bid accumulator inside the summary loop of
ArbitrageDetector::detect_opportunities: a summary with a first bid replaces
the accumulator when the accumulator is empty or the first bid price is
strictly greater than the accumulated price. -/
def bestBidStep (acc : Option (Summary × ℚ)) (s : Summary) : Option (Summary × ℚ) :=
  match s.bids.head? with
  | none => acc
  | some bid =>
    match acc with
    | none => some (s, bid.price)
    | some (t, p) => if bid.price > p then some (s, bid.price) else some (t, p)

/-- One step of the best-ask accumulator inside the summary loop of
detect_opportunities: a summary with a first ask replaces the accumulator when
the accumulator is empty or the first ask price is strictly less than the
accumulated price. -/
def bestAskStep (acc : Option (Summary × ℚ)) (s : Summary) : Option (Summary × ℚ) :=
  match s.asks.head? with
  | none => acc
  | some ask =>
    match acc with
    | none => some (s, ask.price)
    | some (t, p) => if ask.price < p then some (s, ask.price) else some (t, p)

/-- Best bid scan over the summaries of one trading pair.  The source runs a
single loop updating both accumulators; the two accumulators are independent,
so the loop is embedded as one fold per accumulator. -/
def bestBidOf (ss : List Summary) : Option (Summary × ℚ) :=
  ss.foldl bestBidStep none

/-- Best ask scan over the summaries of one trading pair. -/
def bestAskOf (ss : List Summary) : Option (Summary × ℚ) :=
  ss.foldl bestAskStep none

/-- Quantity of the first bid of a summary, modelling
bids.first().map(quantity).unwrap_or(0.0). -/
def firstBidQty (s : Summary) : ℚ := (s.bids.head?.map PriceLevel.quantity).getD 0

/-- Quantity of the first ask of a summary, modelling
asks.first().map(quantity).unwrap_or(0.0). -/
def firstAskQty (s : Summary) : ℚ := (s.asks.head?.map PriceLevel.quantity).getD 0

/-- Exchange of the first bid of a summary.  The source unwraps
bids.first() at this point; the unwrap cannot fail because the summary was
selected by the best-bid scan, which only selects summaries with a first bid.
The default is never reached on those inputs. -/
def firstBidExchange (s : Summary) : Exchange :=
  (s.bids.head?.map PriceLevel.exchange).getD Exchange.Binance

/-- Exchange of the first ask of a summary; same unwrap remark as for
firstBidExchange. -/
def firstAskExchange (s : Summary) : Exchange :=
  (s.asks.head?.map PriceLevel.exchange).getD Exchange.Binance

/-- Body of the per-pair iteration of ArbitrageDetector::detect_opportunities
(arbitrage.rs lines 63-117): skip pairs with fewer than two summaries, scan
for the best first bid and best first ask, and emit one opportunity when the
bid price exceeds the ask price and both thresholds pass.  The let bindings
profit, profit_percentage and available_volume of the source are inlined
here.  Note the source performs no comparison of the two exchanges. -/
def ArbitrageDetector.detectPair (d : ArbitrageDetector) (pair : TradingPair)
    (ss : List Summary) : Option ArbitrageOpportunity :=
  if ss.length < 2 then none
  else
    match bestBidOf ss, bestAskOf ss with
    | some (bidSummary, bidPrice), some (askSummary, askPrice) =>
      if bidPrice > askPrice then
        if (bidPrice - askPrice) / askPrice * 100 ≥ d.minProfitThreshold then
          if min (firstBidQty bidSummary) (firstAskQty askSummary) ≥ d.minVolumeThreshold then
            some
              { buyExchange := firstAskExchange askSummary
                sellExchange := firstBidExchange bidSummary
                symbol := pair.render
                buyPrice := askPrice
                sellPrice := bidPrice
                profitPercentage := (bidPrice - askPrice) / askPrice * 100
                volume := min (firstBidQty bidSummary) (firstAskQty askSummary) }
          else none
        else none
      else none
    | _, _ => none

/-- ArbitrageDetector::detect_opportunities over the summaries map, embedded
as an association list of map entries in iteration order; the loop pushes at
most one opportunity per entry, so the result is the filterMap of the
per-pair body. -/
def ArbitrageDetector.detectOpportunities (d : ArbitrageDetector)
    (entries : List (TradingPair × List Summary)) : List ArbitrageOpportunity :=
  entries.filterMap fun e => d.detectPair e.1 e.2

/-
  Order-book implementations, from orderbook-implementations/src.

  A Rust BTreeSet of Bid values ordered by Ord for Bid is embedded as a list
  kept in ascending Ord order, i.e. descending price order; BTreeSet holds at
  most one element per Ord-equivalence class, and Ord for Bid compares prices
  only, so the list holds at most one element per price.  BTreeSet::insert of
  an element whose Ord-equal is already present leaves the set unchanged.
-/

/-- Insertion into the ordered-set embedding of a BTreeSet under the
comparator cmp: the new element goes before the first element comparing
greater, and is dropped when an Ord-equal element is already present
(BTreeSet::insert does not replace). -/
def btreeInsert {α : Type} (cmp : α → α → Ordering) : List α → α → List α
  | [], a => [a]
  | x :: xs, a =>
    match cmp a x with
    | .lt => a :: x :: xs
    | .eq => x :: xs
    | .gt => x :: btreeInsert cmp xs a

/-- One iteration of the bid loop of BTreeOrderBook::update_bids
(btree_set.rs lines 171-181): remove any existing bid at the same price and
exchange, then insert when the quantity is positive. -/
def btreeUpdateBidsStep (set : List Bid) (bid : Bid) : List Bid :=
  let retained := set.filter fun b => decide (¬(b.price = bid.price ∧ b.exchange = bid.exchange))
  if bid.quantity > 0 then btreeInsert Bid.cmp retained bid else retained

/-- One iteration of the ask loop of BTreeOrderBook::update_asks. -/
def btreeUpdateAsksStep (set : List Ask) (ask : Ask) : List Ask :=
  let retained := set.filter fun a => decide (¬(a.price = ask.price ∧ a.exchange = ask.exchange))
  if ask.quantity > 0 then btreeInsert Ask.cmp retained ask else retained

/-- BTreeOrderBook::update_bids: apply the batch in order, then rebuild the
set from its first max_depth elements in iteration order when it is larger
than max_depth. -/
def btreeUpdateBids (set : List Bid) (bids : List Bid) (maxDepth : ℕ) : List Bid :=
  let s := bids.foldl btreeUpdateBidsStep set
  if s.length > maxDepth then s.take maxDepth else s

/-- BTreeOrderBook::update_asks. -/
def btreeUpdateAsks (set : List Ask) (asks : List Ask) (maxDepth : ℕ) : List Ask :=
  let s := asks.foldl btreeUpdateAsksStep set
  if s.length > maxDepth then s.take maxDepth else s

/-- BTreeOrderBook::get_best_bid: first element in iteration order. -/
def btreeGetBestBid (set : List Bid) : Option Bid := set.head?

/-- BTreeOrderBook::get_best_ask. -/
def btreeGetBestAsk (set : List Ask) : Option Ask := set.head?

/-- BTreeOrderBook::get_best_n_bids. -/
def btreeGetBestNBids (set : List Bid) (n : ℕ) : List Bid := set.take n

/-- BTreeOrderBook::get_best_n_asks. -/
def btreeGetBestNAsks (set : List Ask) (n : ℕ) : List Ask := set.take n

/-
  HashMapOrderBook, from hashmap.rs.  The HashMap keyed by the string
  generate_key(price, exchange) = format price to eight decimal places, an
  underscore, then the exchange name, is embedded as a list of entries keyed
  by the (price, exchange) pair carried inside each level; the eight-decimal
  rendering is injective on the prices handled by these claims.  Iteration
  order of the HashMap is the list order of the embedding; no verified
  property depends on it.
-/

/-- HashMapOrderBook record: both entry maps plus the two maintained sorted
price caches bid_prices (descending) and ask_prices (ascending). -/
structure HashMapOrderBook where
  bids : List Bid
  asks : List Ask
  bidPrices : List ℚ
  askPrices : List ℚ
deriving DecidableEq, Repr

/-- HashMapOrderBook::new. -/
def HashMapOrderBook.empty : HashMapOrderBook := ⟨[], [], [], []⟩

/-- Insertion sort step for a descending price list. -/
def insertDesc (x : ℚ) : List ℚ → List ℚ
  | [] => [x]
  | y :: ys => if x ≥ y then x :: y :: ys else y :: insertDesc x ys

/-- Descending sort of a price list, modelling sort_by with the reversed
partial_cmp comparator used for bid prices. -/
def sortDesc (l : List ℚ) : List ℚ := l.foldr insertDesc []

/-- Insertion sort step for an ascending price list. -/
def insertAsc (x : ℚ) : List ℚ → List ℚ
  | [] => [x]
  | y :: ys => if x ≤ y then x :: y :: ys else y :: insertAsc x ys

/-- Ascending sort of a price list, modelling sort_by with partial_cmp as
used for ask prices. -/
def sortAsc (l : List ℚ) : List ℚ := l.foldr insertAsc []

/-- Removal of consecutive duplicates, modelling Vec::dedup as called on the
sorted price caches. -/
def dedupConsec : List ℚ → List ℚ
  | [] => []
  | [a] => [a]
  | a :: b :: rest =>
    if a = b then dedupConsec (b :: rest) else a :: dedupConsec (b :: rest)

/-- Largest finite f64, the unwrap_or fallback in the ask trim of
update_asks. -/
def f64Max : ℚ := 2 ^ 1024 - 2 ^ 971

/-- HashMap::insert keyed by (price, exchange): replace the entry with the
same key, or add the level when the key is new. -/
def hashInsertBid (m : List Bid) (bid : Bid) : List Bid :=
  if m.any (fun b => decide (b.price = bid.price ∧ b.exchange = bid.exchange)) then
    m.map fun b => if b.price = bid.price ∧ b.exchange = bid.exchange then bid else b
  else m ++ [bid]

/-- HashMap::insert for the ask side. -/
def hashInsertAsk (m : List Ask) (ask : Ask) : List Ask :=
  if m.any (fun a => decide (a.price = ask.price ∧ a.exchange = ask.exchange)) then
    m.map fun a => if a.price = ask.price ∧ a.exchange = ask.exchange then ask else a
  else m ++ [ask]

/-- One iteration of the bid loop of HashMapOrderBook::update_bids
(hashmap.rs lines 70-77): positive quantity upserts under the key, zero
quantity removes the key. -/
def hashUpdateBidsStep (m : List Bid) (bid : Bid) : List Bid :=
  if bid.quantity > 0 then hashInsertBid m bid
  else m.filter fun b => decide (¬(b.price = bid.price ∧ b.exchange = bid.exchange))

/-- One iteration of the ask loop of HashMapOrderBook::update_asks. -/
def hashUpdateAsksStep (m : List Ask) (ask : Ask) : List Ask :=
  if ask.quantity > 0 then hashInsertAsk m ask
  else m.filter fun a => decide (¬(a.price = ask.price ∧ a.exchange = ask.exchange))

/-- Trim step of update_bids (hashmap.rs lines 80-87): when the map is larger
than max_depth, sort all entry prices descending, truncate to max_depth, take
the last kept price (or 0 when none), and retain every entry whose price is
at least that cutoff. -/
def hashTrimBids (m : List Bid) (maxDepth : ℕ) : List Bid :=
  if m.length > maxDepth then
    let prices := (sortDesc (m.map Bid.price)).take maxDepth
    let minPrice := prices.getLast?.getD 0
    m.filter fun b => decide (b.price ≥ minPrice)
  else m

/-- Trim step of update_asks (hashmap.rs lines 106-113): sort ascending,
truncate, take the last kept price (or f64::MAX when none), and retain every
entry whose price is at most that cutoff. -/
def hashTrimAsks (m : List Ask) (maxDepth : ℕ) : List Ask :=
  if m.length > maxDepth then
    let prices := (sortAsc (m.map Ask.price)).take maxDepth
    let maxPrice := prices.getLast?.getD f64Max
    m.filter fun a => decide (a.price ≤ maxPrice)
  else m

/-- HashMapOrderBook::sort_bid_prices: the cache is the descending sorted,
deduplicated list of entry prices. -/
def recomputeBidPrices (m : List Bid) : List ℚ := dedupConsec (sortDesc (m.map Bid.price))

/-- HashMapOrderBook::sort_ask_prices. -/
def recomputeAskPrices (m : List Ask) : List ℚ := dedupConsec (sortAsc (m.map Ask.price))

/-- HashMapOrderBook::update_bids: apply the batch, trim, then rebuild the
bid price cache. -/
def hashUpdateBids (book : HashMapOrderBook) (bids : List Bid) (maxDepth : ℕ) :
    HashMapOrderBook :=
  let m := hashTrimBids (bids.foldl hashUpdateBidsStep book.bids) maxDepth
  { book with bids := m, bidPrices := recomputeBidPrices m }

/-- HashMapOrderBook::update_asks. -/
def hashUpdateAsks (book : HashMapOrderBook) (asks : List Ask) (maxDepth : ℕ) :
    HashMapOrderBook :=
  let m := hashTrimAsks (asks.foldl hashUpdateAsksStep book.asks) maxDepth
  { book with asks := m, askPrices := recomputeAskPrices m }

/-- HashMapOrderBook::get_best_bid: first cached price, then the first map
entry carrying that price in iteration order. -/
def hashGetBestBid (book : HashMapOrderBook) : Option Bid :=
  match book.bidPrices.head? with
  | none => none
  | some p => book.bids.find? fun b => decide (b.price = p)

/-- HashMapOrderBook::get_best_ask. -/
def hashGetBestAsk (book : HashMapOrderBook) : Option Ask :=
  match book.askPrices.head? with
  | none => none
  | some p => book.asks.find? fun a => decide (a.price = p)

/-- HashMapOrderBook::get_best_n_bids (hashmap.rs lines 135-144): for each of
the first n cached prices, the first map entry carrying that price. -/
def hashGetBestNBids (book : HashMapOrderBook) (n : ℕ) : List Bid :=
  (book.bidPrices.take n).filterMap fun p => book.bids.find? fun b => decide (b.price = p)

/-- HashMapOrderBook::get_best_n_asks. -/
def hashGetBestNAsks (book : HashMapOrderBook) (n : ℕ) : List Ask :=
  (book.askPrices.take n).filterMap fun p => book.asks.find? fun a => decide (a.price = p)

/-
  Binance stream processor, from exchange-connectors/src/binance.rs.
-/

/-- Parsed Binance depthUpdate frame (struct OrderBookUpdate in binance.rs);
price and quantity strings are embedded already parsed, and the claims are
about the sequencing logic, which never inspects them. -/
structure DepthUpdate where
  symbol : List Char
  eventTime : ℕ
  firstUpdateId : ℕ
  finalUpdateId : ℕ
  bids : List (ℚ × ℚ)
  asks : List (ℚ × ℚ)
deriving DecidableEq, Repr

/-- Observable outcome of Binance::process_depth_update on a depthUpdate
frame: ignored is the silent Ok return for an out-of-order update, forwarded
carries the PriceLevelUpdate sent onto the price-level queue, and
invalidSequence is the Err(Exchange "Invalid update sequence") return, which
spawn_stream_processor logs and otherwise ignores. -/
inductive DepthOutcome where
  | ignored
  | forwarded (update : PriceLevelUpdate)
  | invalidSequence
deriving DecidableEq, Repr

/-- Conversion of parsed Binance bid levels to Bid values (binance.rs lines
193-208). -/
def binanceLevelsToBids (levels : List (ℚ × ℚ)) : List Bid :=
  levels.map fun l => ⟨l.1, l.2, Exchange.Binance⟩

/-- Conversion of parsed Binance ask levels to Ask values. -/
def binanceLevelsToAsks (levels : List (ℚ × ℚ)) : List Ask :=
  levels.map fun l => ⟨l.1, l.2, Exchange.Binance⟩

/-- Binance::process_depth_update (binance.rs lines 169-252) after JSON
parsing of a frame whose event field is depthUpdate.  The state is the
processor-local last_update_id; the function returns the outcome together
with the new last_update_id.  An update with final id at most the stored id
is ignored; an update overlapping the stored id plus one is forwarded and
advances the stored id; anything else, in particular a sequence gap, returns
the invalid-sequence error and leaves the stored id unchanged. -/
def processDepthUpdate (update : DepthUpdate) (lastUpdateId : ℕ) : DepthOutcome × ℕ :=
  if update.finalUpdateId ≤ lastUpdateId then (.ignored, lastUpdateId)
  else if update.firstUpdateId ≤ lastUpdateId + 1 ∧ lastUpdateId + 1 ≤ update.finalUpdateId then
    (.forwarded
      ⟨update.symbol, Exchange.Binance,
        binanceLevelsToBids update.bids, binanceLevelsToAsks update.asks⟩,
      update.finalUpdateId)
  else (.invalidSequence, lastUpdateId)

/-
  Aggregator, from aggregator-core/src/aggregator.rs, and the error type from
  error.rs (only the variants reached by the modelled operations).
-/

/-- Variants of AggregatorError (error.rs) reached by the modelled code. -/
inductive AggregatorError where
  | channelSend (message : List Char)
  | channelReceive (message : List Char)
  | parsing (dataType message : List Char)
  | exchangeError (exchange message : List Char)
deriving DecidableEq, Repr

/-- HealthStatus from types.rs (last_update timestamp omitted). -/
structure HealthStatus where
  exchange : Exchange
  isHealthy : Bool
  errorMessage : Option (List Char)
deriving DecidableEq, Repr

/-- Metrics from types.rs (last_update timestamp omitted). -/
structure Metrics where
  exchange : Exchange
  symbol : List Char
  updatesPerSecond : ℚ
  latencyMs : ℚ
  errorCount : ℕ
deriving DecidableEq, Repr

/-- Configuration record from config.rs; none of its contents affect the
operations modelled here, so it is embedded as an opaque-free placeholder
record. -/
structure Config where
  unusedContents : Unit
deriving DecidableEq, Repr

/-- State of an Aggregator value: the three reader-writer-locked maps,
embedded as association lists, plus the number of live receivers currently
subscribed to the shutdown broadcast channel.  A tokio broadcast send
succeeds exactly when at least one receiver is alive. -/
structure AggregatorState where
  config : Config
  summaries : List (TradingPair × Summary)
  healthStatus : List (Exchange × HealthStatus)
  metrics : List (Exchange × Metrics)
  shutdownReceivers : ℕ
deriving DecidableEq, Repr

/-- Aggregator::new (aggregator.rs lines 24-38): empty maps, and zero
shutdown receivers, because broadcast::channel returns its initial receiver
into a discarded binding, which drops it immediately. -/
def Aggregator.new (c : Config) : AggregatorState :=
  ⟨c, [], [], [], 0⟩

/-- Message text of the ChannelSend error produced by Aggregator::stop; the
source appends the display of the underlying tokio error. -/
def shutdownSendFailure : List Char :=
  ("Failed to send shutdown signal").toList

/-- Aggregator::stop (aggregator.rs lines 77-85): send on the shutdown
broadcast channel, mapping a send failure, which occurs exactly when no
receiver is subscribed, to AggregatorError::ChannelSend.  The body touches
none of the three maps, so the state is returned unchanged. -/
def Aggregator.stop (s : AggregatorState) : Except AggregatorError Unit × AggregatorState :=
  if s.shutdownReceivers = 0 then
    (Except.error (.channelSend shutdownSendFailure), s)
  else (Except.ok (), s)

/-- Aggregator::process_price_level_update (aggregator.rs lines 291-338):
build a Summary from the update, with spread equal to the first ask price
minus the first bid price when both sides are non-empty and 0.0 otherwise,
then broadcast it.  The function returns the summary it sends. -/
def processPriceLevelUpdate (update : PriceLevelUpdate) : Summary :=
  let bids := update.bids.map fun b => PriceLevel.mk b.price b.quantity b.exchange
  let asks := update.asks.map fun a => PriceLevel.mk a.price a.quantity a.exchange
  let spread : ℚ :=
    match bids.head?, asks.head? with
    | some bestBid, some bestAsk => bestAsk.price - bestBid.price
    | _, _ => 0
  ⟨update.symbol, spread, bids, asks⟩

/-- First-bid prices of a list of summaries: the prices of the first bid of
every summary carrying at least one bid. -/
def firstBidPrices (ss : List Summary) : List ℚ :=
  ss.filterMap fun s => s.bids.head?.map PriceLevel.price

/-- First-ask prices of a list of summaries. -/
def firstAskPrices (ss : List Summary) : List ℚ :=
  ss.filterMap fun s => s.asks.head?.map PriceLevel.price

/-
  Concrete fixtures used by the closed instance theorems below.  The values
  follow the seed scenarios of the specification and the unit tests of the
  sources: the default detector thresholds (0.1 percent, 0.01), the BTC/USDT
  pair, and small hand-checkable books.
-/

/-- Detector with the default thresholds of ArbitrageDetector::default. -/
def testDetector : ArbitrageDetector := ⟨1 / 10, 1 / 100⟩

/-- The BTC/USDT trading pair. -/
def btcUsdt : TradingPair := ⟨[ 'B', 'T', 'C'], [ 'U', 'S', 'D', 'T']⟩

/-- Venue A summary of seed scenario S1: Binance bids [(49950, 1)], asks
[(49951, 1)]. -/
def summaryVenueA : Summary :=
  ⟨btcUsdt.render, 1, [⟨49950, 1, .Binance⟩], [⟨49951, 1, .Binance⟩]⟩

/-- Venue B summary of seed scenario S1: Bybit bids [(50100, 1)], asks
[(50101, 1)]. -/
def summaryVenueB : Summary :=
  ⟨btcUsdt.render, 1, [⟨50100, 1, .Bybit⟩], [⟨50101, 1, .Bybit⟩]⟩

/-- Internally crossed Binance summary: first bid 100 above first ask 90. -/
def crossedSummary : Summary :=
  ⟨btcUsdt.render, 0, [⟨100, 1, .Binance⟩], [⟨90, 1, .Binance⟩]⟩

/-- Second venue summary whose quotes are strictly inside the crossed ones:
Bybit bids [(50, 1)], asks [(95, 1)]. -/
def otherSummary : Summary :=
  ⟨btcUsdt.render, 0, [⟨50, 1, .Bybit⟩], [⟨95, 1, .Bybit⟩]⟩

/-- Binance bid at price 100, quantity 1. -/
def bidBinance100 : Bid := ⟨100, 1, .Binance⟩

/-- Bybit bid at the same price 100, quantity 2. -/
def bidBybit100 : Bid := ⟨100, 2, .Bybit⟩

/-- Binance ask at price 100, quantity 1. -/
def askBinance100 : Ask := ⟨100, 1, .Binance⟩

/-- Bybit ask at the same price 100, quantity 2. -/
def askBybit100 : Ask := ⟨100, 2, .Bybit⟩

/-- Update whose bid list is not sorted best-first: bids [(100, 1), (200, 1)],
asks [(150, 1)]. -/
def unsortedUpdate : PriceLevelUpdate :=
  ⟨[ 'B', 'T', 'C'], .Binance, [⟨100, 1, .Binance⟩, ⟨200, 1, .Bybit⟩], [⟨150, 1, .Binance⟩]⟩

theorem bestBidStep_no_bids (acc : Option (Summary × ℚ)) (s : Summary)
    (h : s.bids.head? = none) : bestBidStep acc s = acc := by
  simp [bestBidStep, h]

theorem bestBidStep_of_none (s : Summary) (bid : PriceLevel)
    (h : s.bids.head? = some bid) : bestBidStep none s = some (s, bid.price) := by
  simp [bestBidStep, h]

theorem bestBidStep_of_some (t : Summary) (p : ℚ) (s : Summary) (bid : PriceLevel)
    (h : s.bids.head? = some bid) :
    bestBidStep (some (t, p)) s =
      if bid.price > p then some (s, bid.price) else some (t, p) := by
  simp [bestBidStep, h]

theorem bestAskStep_no_asks (acc : Option (Summary × ℚ)) (s : Summary)
    (h : s.asks.head? = none) : bestAskStep acc s = acc := by
  simp [bestAskStep, h]

theorem bestAskStep_of_none (s : Summary) (ask : PriceLevel)
    (h : s.asks.head? = some ask) : bestAskStep none s = some (s, ask.price) := by
  simp [bestAskStep, h]

theorem bestAskStep_of_some (t : Summary) (p : ℚ) (s : Summary) (ask : PriceLevel)
    (h : s.asks.head? = some ask) :
    bestAskStep (some (t, p)) s =
      if ask.price < p then some (s, ask.price) else some (t, p) := by
  simp [bestAskStep, h]

theorem foldl_bestBidStep_mono (ss : List Summary) :
    ∀ (t : Summary) (p : ℚ) (s : Summary) (q : ℚ),
      ss.foldl bestBidStep (some (t, p)) = some (s, q) → p ≤ q := by
  induction ss with
  | nil =>
    intro t p s q h
    simp only [List.foldl_nil, Option.some.injEq, Prod.mk.injEq] at h
    exact le_of_eq h.2
  | cons u ts ih =>
    intro t p s q h
    rw [List.foldl_cons] at h
    cases hu : u.bids.head? with
    | none =>
      rw [bestBidStep_no_bids _ _ hu] at h
      exact ih t p s q h
    | some bid =>
      rw [bestBidStep_of_some t p u bid hu] at h
      by_cases hc : bid.price > p
      · rw [if_pos hc] at h
        exact le_trans (le_of_lt hc) (ih u bid.price s q h)
      · rw [if_neg hc] at h
        exact ih t p s q h

theorem foldl_bestBidStep_ub (ss : List Summary) :
    ∀ (acc : Option (Summary × ℚ)) (s : Summary) (q : ℚ),
      ss.foldl bestBidStep acc = some (s, q) →
      ∀ u ∈ ss, ∀ bid, u.bids.head? = some bid → bid.price ≤ q := by
  induction ss with
  | nil =>
    intro acc s q _ u hu
    simp at hu
  | cons v ts ih =>
    intro acc s q h u hu bid hbid
    rw [List.foldl_cons] at h
    rcases List.mem_cons.mp hu with rfl | hmem
    · cases acc with
      | none =>
        rw [bestBidStep_of_none u bid hbid] at h
        exact foldl_bestBidStep_mono ts u bid.price s q h
      | some x =>
        rcases x with ⟨t, p⟩
        rw [bestBidStep_of_some t p u bid hbid] at h
        by_cases hc : bid.price > p
        · rw [if_pos hc] at h
          exact foldl_bestBidStep_mono ts u bid.price s q h
        · rw [if_neg hc] at h
          exact le_trans (not_lt.mp hc) (foldl_bestBidStep_mono ts t p s q h)
    · exact ih (bestBidStep acc v) s q h u hmem bid hbid

theorem foldl_bestBidStep_mem (ss : List Summary) :
    ∀ (acc : Option (Summary × ℚ)) (s : Summary) (q : ℚ),
      ss.foldl bestBidStep acc = some (s, q) →
      (s ∈ ss ∧ s.bids.head?.map PriceLevel.price = some q) ∨ acc = some (s, q) := by
  induction ss with
  | nil =>
    intro acc s q h
    exact Or.inr h
  | cons v ts ih =>
    intro acc s q h
    rw [List.foldl_cons] at h
    rcases ih (bestBidStep acc v) s q h with ⟨hs, hq⟩ | hstep
    · exact Or.inl ⟨List.mem_cons_of_mem v hs, hq⟩
    · cases hv : v.bids.head? with
      | none =>
        rw [bestBidStep_no_bids _ _ hv] at hstep
        exact Or.inr hstep
      | some bid =>
        cases acc with
        | none =>
          rw [bestBidStep_of_none v bid hv] at hstep
          obtain ⟨rfl, rfl⟩ := Prod.mk.injEq .. ▸ Option.some.inj hstep
          exact Or.inl ⟨List.mem_cons_self v ts, by simp [hv]⟩
        | some x =>
          rcases x with ⟨t, p⟩
          rw [bestBidStep_of_some t p v bid hv] at hstep
          by_cases hc : bid.price > p
          · rw [if_pos hc] at hstep
            obtain ⟨rfl, rfl⟩ := Prod.mk.injEq .. ▸ Option.some.inj hstep
            exact Or.inl ⟨List.mem_cons_self v ts, by simp [hv]⟩
          · rw [if_neg hc] at hstep
            exact Or.inr hstep

theorem foldl_bestAskStep_mono (ss : List Summary) :
    ∀ (t : Summary) (p : ℚ) (s : Summary) (q : ℚ),
      ss.foldl bestAskStep (some (t, p)) = some (s, q) → q ≤ p := by
  induction ss with
  | nil =>
    intro t p s q h
    simp only [List.foldl_nil, Option.some.injEq, Prod.mk.injEq] at h
    exact le_of_eq h.2.symm
  | cons u ts ih =>
    intro t p s q h
    rw [List.foldl_cons] at h
    cases hu : u.asks.head? with
    | none =>
      rw [bestAskStep_no_asks _ _ hu] at h
      exact ih t p s q h
    | some ask =>
      rw [bestAskStep_of_some t p u ask hu] at h
      by_cases hc : ask.price < p
      · rw [if_pos hc] at h
        exact le_trans (ih u ask.price s q h) (le_of_lt hc)
      · rw [if_neg hc] at h
        exact ih t p s q h

theorem foldl_bestAskStep_lb (ss : List Summary) :
    ∀ (acc : Option (Summary × ℚ)) (s : Summary) (q : ℚ),
      ss.foldl bestAskStep acc = some (s, q) →
      ∀ u ∈ ss, ∀ ask, u.asks.head? = some ask → q ≤ ask.price := by
  induction ss with
  | nil =>
    intro acc s q _ u hu
    simp at hu
  | cons v ts ih =>
    intro acc s q h u hu ask hask
    rw [List.foldl_cons] at h
    rcases List.mem_cons.mp hu with rfl | hmem
    · cases acc with
      | none =>
        rw [bestAskStep_of_none u ask hask] at h
        exact foldl_bestAskStep_mono ts u ask.price s q h
      | some x =>
        rcases x with ⟨t, p⟩
        rw [bestAskStep_of_some t p u ask hask] at h
        by_cases hc : ask.price < p
        · rw [if_pos hc] at h
          exact foldl_bestAskStep_mono ts u ask.price s q h
        · rw [if_neg hc] at h
          exact le_trans (foldl_bestAskStep_mono ts t p s q h) (not_lt.mp hc)
    · exact ih (bestAskStep acc v) s q h u hmem ask hask

theorem foldl_bestAskStep_mem (ss : List Summary) :
    ∀ (acc : Option (Summary × ℚ)) (s : Summary) (q : ℚ),
      ss.foldl bestAskStep acc = some (s, q) →
      (s ∈ ss ∧ s.asks.head?.map PriceLevel.price = some q) ∨ acc = some (s, q) := by
  induction ss with
  | nil =>
    intro acc s q h
    exact Or.inr h
  | cons v ts ih =>
    intro acc s q h
    rw [List.foldl_cons] at h
    rcases ih (bestAskStep acc v) s q h with ⟨hs, hq⟩ | hstep
    · exact Or.inl ⟨List.mem_cons_of_mem v hs, hq⟩
    · cases hv : v.asks.head? with
      | none =>
        rw [bestAskStep_no_asks _ _ hv] at hstep
        exact Or.inr hstep
      | some ask =>
        cases acc with
        | none =>
          rw [bestAskStep_of_none v ask hv] at hstep
          obtain ⟨rfl, rfl⟩ := Prod.mk.injEq .. ▸ Option.some.inj hstep
          exact Or.inl ⟨List.mem_cons_self v ts, by simp [hv]⟩
        | some x =>
          rcases x with ⟨t, p⟩
          rw [bestAskStep_of_some t p v ask hv] at hstep
          by_cases hc : ask.price < p
          · rw [if_pos hc] at hstep
            obtain ⟨rfl, rfl⟩ := Prod.mk.injEq .. ▸ Option.some.inj hstep
            exact Or.inl ⟨List.mem_cons_self v ts, by simp [hv]⟩
          · rw [if_neg hc] at hstep
            exact Or.inr hstep

theorem bestBidOf_spec (ss : List Summary) (s : Summary) (q : ℚ)
    (h : bestBidOf ss = some (s, q)) :
    s ∈ ss ∧ s.bids.head?.map PriceLevel.price = some q ∧
      q ∈ firstBidPrices ss ∧ ∀ r ∈ firstBidPrices ss, r ≤ q := by
  rcases foldl_bestBidStep_mem ss none s q h with ⟨hs, hq⟩ | hc
  · refine ⟨hs, hq, ?_, ?_⟩
    · exact List.mem_filterMap.mpr ⟨s, hs, hq⟩
    · intro r hr
      rcases List.mem_filterMap.mp hr with ⟨u, hu, hmap⟩
      rcases Option.map_eq_some'.mp hmap with ⟨bid, hbid, rfl⟩
      exact foldl_bestBidStep_ub ss none s q h u hu bid hbid
  · exact absurd hc (by simp)

theorem bestAskOf_spec (ss : List Summary) (s : Summary) (q : ℚ)
    (h : bestAskOf ss = some (s, q)) :
    s ∈ ss ∧ s.asks.head?.map PriceLevel.price = some q ∧
      q ∈ firstAskPrices ss ∧ ∀ r ∈ firstAskPrices ss, q ≤ r := by
  rcases foldl_bestAskStep_mem ss none s q h with ⟨hs, hq⟩ | hc
  · refine ⟨hs, hq, ?_, ?_⟩
    · exact List.mem_filterMap.mpr ⟨s, hs, hq⟩
    · intro r hr
      rcases List.mem_filterMap.mp hr with ⟨u, hu, hmap⟩
      rcases Option.map_eq_some'.mp hmap with ⟨ask, hask, rfl⟩
      exact foldl_bestAskStep_lb ss none s q h u hu ask hask
  · exact absurd hc (by simp)

theorem detectPair_emits (d : ArbitrageDetector) (pair : TradingPair) (ss : List Summary)
    (bs : Summary) (bp : ℚ) (ask : Summary) (ap : ℚ)
    (hlen : ¬ ss.length < 2)
    (hbb : bestBidOf ss = some (bs, bp)) (hba : bestAskOf ss = some (ask, ap))
    (hgt : bp > ap)
    (hp : (bp - ap) / ap * 100 ≥ d.minProfitThreshold)
    (hv : min (firstBidQty bs) (firstAskQty ask) ≥ d.minVolumeThreshold) :
    d.detectPair pair ss = some
      ⟨firstAskExchange ask, firstBidExchange bs, pair.render, ap, bp,
        (bp - ap) / ap * 100, min (firstBidQty bs) (firstAskQty ask)⟩ := by
  simp only [ArbitrageDetector.detectPair, if_neg hlen, hbb, hba]
  rw [if_pos hgt, if_pos hp, if_pos hv]

theorem detectPair_inv (d : ArbitrageDetector) (pair : TradingPair) (ss : List Summary)
    (op : ArbitrageOpportunity) (h : d.detectPair pair ss = some op) :
    ¬ ss.length < 2 ∧
    ∃ bs bp ask ap,
      bestBidOf ss = some (bs, bp) ∧ bestAskOf ss = some (ask, ap) ∧
      bp > ap ∧ (bp - ap) / ap * 100 ≥ d.minProfitThreshold ∧
      min (firstBidQty bs) (firstAskQty ask) ≥ d.minVolumeThreshold ∧
      op = ⟨firstAskExchange ask, firstBidExchange bs, pair.render, ap, bp,
        (bp - ap) / ap * 100, min (firstBidQty bs) (firstAskQty ask)⟩ := by
  unfold ArbitrageDetector.detectPair at h
  split at h
  · exact absurd h (by simp)
  · split at h
    · next bs bp ask ap hbb hba =>
      split at h
      · split at h
        · split at h
          · refine ⟨by assumption, bs, bp, ask, ap, hbb, hba, by assumption, by assumption,
              by assumption, ?_⟩
            exact (Option.some.inj h).symm
          · exact absurd h (by simp)
        · exact absurd h (by simp)
      · exact absurd h (by simp)
    · exact absurd h (by simp)

/-- C1: for every summaries map passed to detect_opportunities and every
trading pair with at least two summaries, whose highest first-bid price bp
(the price selected by the best-bid scan, shown maximal in the first two
conjuncts) exceeds the lowest first-ask price ap, an opportunity for that
pair appears in the result if and only if the profit percentage
(bp - ap) / ap * 100 reaches min_profit_threshold and the minimum of the best
bid and best ask quantities reaches min_volume_threshold. -/
theorem arbitrage_gating_iff (d : ArbitrageDetector)
    (entries : List (TradingPair × List Summary)) (pair : TradingPair)
    (ss : List Summary) (bs : Summary) (bp : ℚ) (ask : Summary) (ap : ℚ)
    (hmem : (pair, ss) ∈ entries)
    (hnodup : (entries.map fun e => e.1.render).Nodup)
    (hlen : 2 ≤ ss.length)
    (hbb : bestBidOf ss = some (bs, bp))
    (hba : bestAskOf ss = some (ask, ap))
    (hgt : ap < bp) :
    (∀ r ∈ firstBidPrices ss, r ≤ bp) ∧ (∀ r ∈ firstAskPrices ss, ap ≤ r) ∧
    ((∃ op ∈ d.detectOpportunities entries, op.symbol = pair.render) ↔
      d.minProfitThreshold ≤ (bp - ap) / ap * 100 ∧
      d.minVolumeThreshold ≤ min (firstBidQty bs) (firstAskQty ask)) := by
  refine ⟨(bestBidOf_spec ss bs bp hbb).2.2.2, (bestAskOf_spec ss ask ap hba).2.2.2, ?_, ?_⟩
  · rintro ⟨op, hop, hsym⟩
    rcases List.mem_filterMap.mp hop with ⟨⟨pair2, ss2⟩, hmem2, hdp⟩
    obtain ⟨hlen2, bs2, bp2, ask2, ap2, hbb2, hba2, hgt2, hp2, hv2, hopEq⟩ :=
      detectPair_inv d pair2 ss2 op hdp
    have hren : pair2.render = pair.render := by
      rw [hopEq] at hsym
      exact hsym
    have hent : (pair2, ss2) = (pair, ss) :=
      List.inj_on_of_nodup_map hnodup hmem2 hmem hren
    obtain ⟨rfl, rfl⟩ := Prod.mk.injEq .. ▸ hent
    obtain ⟨rfl, rfl⟩ := Prod.mk.injEq .. ▸ Option.some.inj (hbb.symm.trans hbb2)
    obtain ⟨rfl, rfl⟩ := Prod.mk.injEq .. ▸ Option.some.inj (hba.symm.trans hba2)
    exact ⟨hp2, hv2⟩
  · rintro ⟨hp, hv⟩
    have hlen2 : ¬ ss.length < 2 := by omega
    exact ⟨_, List.mem_filterMap.mpr
      ⟨(pair, ss), hmem, detectPair_emits d pair ss bs bp ask ap hlen2 hbb hba hgt hp hv⟩, rfl⟩

/-- Witness for arbitrage_gating_iff on seed scenario S1: venue A quotes
49950 / 49951 on Binance, venue B quotes 50100 / 50101 on Bybit, thresholds
(0.1 percent, 0.01). -/
theorem arbitrage_gating_iff_witness :
    (∀ r ∈ firstBidPrices [summaryVenueA, summaryVenueB], r ≤ 50100) ∧
    (∀ r ∈ firstAskPrices [summaryVenueA, summaryVenueB], (49951 : ℚ) ≤ r) ∧
    ((∃ op ∈ testDetector.detectOpportunities [(btcUsdt, [summaryVenueA, summaryVenueB])],
        op.symbol = btcUsdt.render) ↔
      testDetector.minProfitThreshold ≤ ((50100 : ℚ) - 49951) / 49951 * 100 ∧
      testDetector.minVolumeThreshold ≤
        min (firstBidQty summaryVenueB) (firstAskQty summaryVenueA)) :=
  arbitrage_gating_iff testDetector [(btcUsdt, [summaryVenueA, summaryVenueB])] btcUsdt
    [summaryVenueA, summaryVenueB] summaryVenueB 50100 summaryVenueA 49951
    (by decide) (by decide) (by decide) (by decide) (by decide) (by decide)

/-- C5: every opportunity emitted by detect_opportunities comes from an entry
of the summaries map, carries as sell price the highest first-bid price among
that entry's summaries and as buy price the lowest first-ask price, has
profit_percentage = (sell - buy) / buy * 100, and has volume equal to the
minimum of the quantities of that best bid and that best ask. -/
theorem opportunity_fields_correct (d : ArbitrageDetector)
    (entries : List (TradingPair × List Summary)) (op : ArbitrageOpportunity)
    (h : op ∈ d.detectOpportunities entries) :
    ∃ pair ss bidSummary askSummary,
      (pair, ss) ∈ entries ∧
      bestBidOf ss = some (bidSummary, op.sellPrice) ∧
      bestAskOf ss = some (askSummary, op.buyPrice) ∧
      op.sellPrice ∈ firstBidPrices ss ∧ (∀ r ∈ firstBidPrices ss, r ≤ op.sellPrice) ∧
      op.buyPrice ∈ firstAskPrices ss ∧ (∀ r ∈ firstAskPrices ss, op.buyPrice ≤ r) ∧
      op.buyPrice < op.sellPrice ∧
      op.profitPercentage = (op.sellPrice - op.buyPrice) / op.buyPrice * 100 ∧
      op.volume = min (firstBidQty bidSummary) (firstAskQty askSummary) := by
  rcases List.mem_filterMap.mp h with ⟨⟨pair, ss⟩, hmem, hdp⟩
  obtain ⟨hlen, bs, bp, ask, ap, hbb, hba, hgt, hp, hv, rfl⟩ :=
    detectPair_inv d pair ss op hdp
  obtain ⟨-, -, hmemB, hubB⟩ := bestBidOf_spec ss bs bp hbb
  obtain ⟨-, -, hmemA, hlbA⟩ := bestAskOf_spec ss ask ap hba
  exact ⟨pair, ss, bs, ask, hmem, hbb, hba, hmemB, hubB, hmemA, hlbA, hgt, rfl, rfl⟩

/-- Witness for opportunity_fields_correct at the opportunity produced on
seed scenario S1. -/
theorem opportunity_fields_correct_witness :
    ∃ pair ss bidSummary askSummary,
      (pair, ss) ∈ [(btcUsdt, [summaryVenueA, summaryVenueB])] ∧
      bestBidOf ss = some (bidSummary,
        (⟨.Binance, .Bybit, btcUsdt.render, 49951, 50100, ((50100 : ℚ) - 49951) / 49951 * 100,
          min (firstBidQty summaryVenueB) (firstAskQty summaryVenueA)⟩ :
            ArbitrageOpportunity).sellPrice) ∧
      bestAskOf ss = some (askSummary,
        (⟨.Binance, .Bybit, btcUsdt.render, 49951, 50100, ((50100 : ℚ) - 49951) / 49951 * 100,
          min (firstBidQty summaryVenueB) (firstAskQty summaryVenueA)⟩ :
            ArbitrageOpportunity).buyPrice) ∧
      (⟨.Binance, .Bybit, btcUsdt.render, 49951, 50100, ((50100 : ℚ) - 49951) / 49951 * 100,
          min (firstBidQty summaryVenueB) (firstAskQty summaryVenueA)⟩ :
            ArbitrageOpportunity).sellPrice ∈ firstBidPrices ss ∧
      (∀ r ∈ firstBidPrices ss, r ≤
        (⟨.Binance, .Bybit, btcUsdt.render, 49951, 50100, ((50100 : ℚ) - 49951) / 49951 * 100,
          min (firstBidQty summaryVenueB) (firstAskQty summaryVenueA)⟩ :
            ArbitrageOpportunity).sellPrice) ∧
      (⟨.Binance, .Bybit, btcUsdt.render, 49951, 50100, ((50100 : ℚ) - 49951) / 49951 * 100,
          min (firstBidQty summaryVenueB) (firstAskQty summaryVenueA)⟩ :
            ArbitrageOpportunity).buyPrice ∈ firstAskPrices ss ∧
      (∀ r ∈ firstAskPrices ss,
        (⟨.Binance, .Bybit, btcUsdt.render, 49951, 50100, ((50100 : ℚ) - 49951) / 49951 * 100,
          min (firstBidQty summaryVenueB) (firstAskQty summaryVenueA)⟩ :
            ArbitrageOpportunity).buyPrice ≤ r) ∧
      (⟨.Binance, .Bybit, btcUsdt.render, 49951, 50100, ((50100 : ℚ) - 49951) / 49951 * 100,
          min (firstBidQty summaryVenueB) (firstAskQty summaryVenueA)⟩ :
            ArbitrageOpportunity).buyPrice <
        (⟨.Binance, .Bybit, btcUsdt.render, 49951, 50100, ((50100 : ℚ) - 49951) / 49951 * 100,
          min (firstBidQty summaryVenueB) (firstAskQty summaryVenueA)⟩ :
            ArbitrageOpportunity).sellPrice ∧
      (⟨.Binance, .Bybit, btcUsdt.render, 49951, 50100, ((50100 : ℚ) - 49951) / 49951 * 100,
          min (firstBidQty summaryVenueB) (firstAskQty summaryVenueA)⟩ :
            ArbitrageOpportunity).profitPercentage =
        ((⟨.Binance, .Bybit, btcUsdt.render, 49951, 50100, ((50100 : ℚ) - 49951) / 49951 * 100,
          min (firstBidQty summaryVenueB) (firstAskQty summaryVenueA)⟩ :
            ArbitrageOpportunity).sellPrice -
          (⟨.Binance, .Bybit, btcUsdt.render, 49951, 50100, ((50100 : ℚ) - 49951) / 49951 * 100,
            min (firstBidQty summaryVenueB) (firstAskQty summaryVenueA)⟩ :
              ArbitrageOpportunity).buyPrice) /
          (⟨.Binance, .Bybit, btcUsdt.render, 49951, 50100, ((50100 : ℚ) - 49951) / 49951 * 100,
            min (firstBidQty summaryVenueB) (firstAskQty summaryVenueA)⟩ :
              ArbitrageOpportunity).buyPrice * 100 ∧
      (⟨.Binance, .Bybit, btcUsdt.render, 49951, 50100, ((50100 : ℚ) - 49951) / 49951 * 100,
          min (firstBidQty summaryVenueB) (firstAskQty summaryVenueA)⟩ :
            ArbitrageOpportunity).volume =
        min (firstBidQty bidSummary) (firstAskQty askSummary) :=
  opportunity_fields_correct testDetector [(btcUsdt, [summaryVenueA, summaryVenueB])]
    ⟨.Binance, .Bybit, btcUsdt.render, 49951, 50100, ((50100 : ℚ) - 49951) / 49951 * 100,
      min (firstBidQty summaryVenueB) (firstAskQty summaryVenueA)⟩
    (by decide)

/-- C4 (failing run): on a summaries map in which a single internally crossed
Binance summary supplies both the highest first bid (100) and the lowest
first ask (90) of the pair, detect_opportunities with the default thresholds
emits an opportunity whose buy and sell exchanges are both Binance: the
source never compares the two exchanges, so the claimed invariant that
buy_exchange and sell_exchange differ fails. -/
theorem detect_opportunities_same_exchange :
    (testDetector.detectOpportunities [(btcUsdt, [crossedSummary, otherSummary])]).map
        (fun op => (op.buyExchange, op.sellExchange)) =
      [(Exchange.Binance, Exchange.Binance)] := by decide

/-- C3 (failing run): HashMapOrderBook::update_bids applied to an empty book
with two bids at the same price 100 from different exchanges and max_depth 1
leaves a bid depth of 2: the trim retains every level whose price reaches the
cutoff price, so price ties across exchanges defeat the depth bound. -/
theorem hashmap_trim_depth_exceeded :
    (hashUpdateBids HashMapOrderBook.empty [bidBinance100, bidBybit100] 1).bids.length = 2 ∧
    ¬ (hashUpdateBids HashMapOrderBook.empty [bidBinance100, bidBybit100] 1).bids.length ≤ 1 := by
  decide

/-- C6 (failing run): the Ord comparison on Bid and on Ask values compares
prices only, so two levels with equal price from different exchanges compare
as Equal; consequently the BTreeSet-based book retains only the first of the
two levels, and while the HashMap-based book stores both, its
get_best_n_bids reports a single level for the shared price. -/
theorem level_order_ignores_exchange :
    Bid.cmp bidBinance100 bidBybit100 = Ordering.eq ∧
    Ask.cmp askBinance100 askBybit100 = Ordering.eq ∧
    bidBinance100.exchange ≠ bidBybit100.exchange ∧
    btreeUpdateBids [] [bidBinance100, bidBybit100] 10 = [bidBinance100] ∧
    (hashUpdateBids HashMapOrderBook.empty [bidBinance100, bidBybit100] 10).bids.length = 2 ∧
    hashGetBestNBids (hashUpdateBids HashMapOrderBook.empty [bidBinance100, bidBybit100] 10) 2 =
      [bidBinance100] := by decide

/-- C2 (failing run): the Binance stream processor on the delta stream of
seed scenario S5: after the snapshot set last_update_id to 1000, the delta
(U 1001, u 1005) is forwarded; the gapped delta (U 1007, u 1010) is not
forwarded, and process_depth_update merely returns the invalid-sequence
error, which the processor loop logs, with last_update_id left at 1005: no
transition to a Syncing state and no snapshot request exists on this path,
so the next update from the venue is not a snapshot. -/
theorem binance_sequence_gap_no_resync :
    processDepthUpdate ⟨[ 'B', 'T', 'C'], 0, 1001, 1005, [], []⟩ 1000 =
      (DepthOutcome.forwarded ⟨[ 'B', 'T', 'C'], .Binance, [], []⟩, 1005) ∧
    processDepthUpdate ⟨[ 'B', 'T', 'C'], 0, 1007, 1010, [], []⟩ 1005 =
      (DepthOutcome.invalidSequence, 1005) := by decide

theorem hashTrimBids_subset (m : List Bid) (n : ℕ) :
    ∀ b ∈ hashTrimBids m n, b ∈ m := by
  intro b hb
  unfold hashTrimBids at hb
  split at hb
  · exact (List.mem_filter.mp hb).1
  · exact hb

theorem hashTrimAsks_subset (m : List Ask) (n : ℕ) :
    ∀ a ∈ hashTrimAsks m n, a ∈ m := by
  intro a ha
  unfold hashTrimAsks at ha
  split at ha
  · exact (List.mem_filter.mp ha).1
  · exact ha

/-- C7: on both order-book implementations and on both sides, applying an
update (p, q, e) with q positive followed by (p, 0, e) leaves no level at
price p from exchange e, for every starting book and max depth; and when the
side is then empty, the best-level query returns none. -/
theorem zero_quantity_removes_level (p q : ℚ) (e : Exchange) (n : ℕ) (hq : 0 < q) :
    (∀ set : List Bid,
      (∀ b ∈ btreeUpdateBids (btreeUpdateBids set [⟨p, q, e⟩] n) [⟨p, 0, e⟩] n,
        ¬(b.price = p ∧ b.exchange = e)) ∧
      (btreeUpdateBids (btreeUpdateBids set [⟨p, q, e⟩] n) [⟨p, 0, e⟩] n = [] →
        btreeGetBestBid (btreeUpdateBids (btreeUpdateBids set [⟨p, q, e⟩] n) [⟨p, 0, e⟩] n) =
          none)) ∧
    (∀ set : List Ask,
      (∀ a ∈ btreeUpdateAsks (btreeUpdateAsks set [⟨p, q, e⟩] n) [⟨p, 0, e⟩] n,
        ¬(a.price = p ∧ a.exchange = e)) ∧
      (btreeUpdateAsks (btreeUpdateAsks set [⟨p, q, e⟩] n) [⟨p, 0, e⟩] n = [] →
        btreeGetBestAsk (btreeUpdateAsks (btreeUpdateAsks set [⟨p, q, e⟩] n) [⟨p, 0, e⟩] n) =
          none)) ∧
    (∀ book : HashMapOrderBook,
      (∀ b ∈ (hashUpdateBids (hashUpdateBids book [⟨p, q, e⟩] n) [⟨p, 0, e⟩] n).bids,
        ¬(b.price = p ∧ b.exchange = e)) ∧
      ((hashUpdateBids (hashUpdateBids book [⟨p, q, e⟩] n) [⟨p, 0, e⟩] n).bids = [] →
        hashGetBestBid (hashUpdateBids (hashUpdateBids book [⟨p, q, e⟩] n) [⟨p, 0, e⟩] n) =
          none)) ∧
    (∀ book : HashMapOrderBook,
      (∀ a ∈ (hashUpdateAsks (hashUpdateAsks book [⟨p, q, e⟩] n) [⟨p, 0, e⟩] n).asks,
        ¬(a.price = p ∧ a.exchange = e)) ∧
      ((hashUpdateAsks (hashUpdateAsks book [⟨p, q, e⟩] n) [⟨p, 0, e⟩] n).asks = [] →
        hashGetBestAsk (hashUpdateAsks (hashUpdateAsks book [⟨p, q, e⟩] n) [⟨p, 0, e⟩] n) =
          none)) := by
  refine ⟨?_, ?_, ?_, ?_⟩
  · intro set
    constructor
    · intro b hb
      have hstep : btreeUpdateBids (btreeUpdateBids set [⟨p, q, e⟩] n) [⟨p, 0, e⟩] n =
          (let t := (btreeUpdateBids set [⟨p, q, e⟩] n).filter
            fun b => decide ¬(b.price = p ∧ b.exchange = e);
          if t.length > n then t.take n else t) := by
        simp [btreeUpdateBids, btreeUpdateBidsStep]
      rw [hstep] at hb
      have hb2 : b ∈ (btreeUpdateBids set [⟨p, q, e⟩] n).filter
          fun b => decide ¬(b.price = p ∧ b.exchange = e) := by
        dsimp only at hb
        split at hb
        · exact List.take_subset _ _ hb
        · exact hb
      have := (List.mem_filter.mp hb2).2
      exact of_decide_eq_true this
    · intro hemp
      rw [btreeGetBestBid, hemp]
      rfl
  · intro set
    constructor
    · intro a ha
      have hstep : btreeUpdateAsks (btreeUpdateAsks set [⟨p, q, e⟩] n) [⟨p, 0, e⟩] n =
          (let t := (btreeUpdateAsks set [⟨p, q, e⟩] n).filter
            fun a => decide ¬(a.price = p ∧ a.exchange = e);
          if t.length > n then t.take n else t) := by
        simp [btreeUpdateAsks, btreeUpdateAsksStep]
      rw [hstep] at ha
      have ha2 : a ∈ (btreeUpdateAsks set [⟨p, q, e⟩] n).filter
          fun a => decide ¬(a.price = p ∧ a.exchange = e) := by
        dsimp only at ha
        split at ha
        · exact List.take_subset _ _ ha
        · exact ha
      have := (List.mem_filter.mp ha2).2
      exact of_decide_eq_true this
    · intro hemp
      rw [btreeGetBestAsk, hemp]
      rfl
  · intro book
    constructor
    · intro b hb
      have hstep : (hashUpdateBids (hashUpdateBids book [⟨p, q, e⟩] n) [⟨p, 0, e⟩] n).bids =
          hashTrimBids ((hashUpdateBids book [⟨p, q, e⟩] n).bids.filter
            fun b => decide ¬(b.price = p ∧ b.exchange = e)) n := by
        simp [hashUpdateBids, hashUpdateBidsStep]
      rw [hstep] at hb
      have hb2 := hashTrimBids_subset _ n b hb
      exact of_decide_eq_true (List.mem_filter.mp hb2).2
    · intro hemp
      have hpr : (hashUpdateBids (hashUpdateBids book [⟨p, q, e⟩] n) [⟨p, 0, e⟩] n).bidPrices =
          recomputeBidPrices
            (hashUpdateBids (hashUpdateBids book [⟨p, q, e⟩] n) [⟨p, 0, e⟩] n).bids := rfl
      rw [hashGetBestBid, hpr, hemp]
      rfl
  · intro book
    constructor
    · intro a ha
      have hstep : (hashUpdateAsks (hashUpdateAsks book [⟨p, q, e⟩] n) [⟨p, 0, e⟩] n).asks =
          hashTrimAsks ((hashUpdateAsks book [⟨p, q, e⟩] n).asks.filter
            fun a => decide ¬(a.price = p ∧ a.exchange = e)) n := by
        simp [hashUpdateAsks, hashUpdateAsksStep]
      rw [hstep] at ha
      have ha2 := hashTrimAsks_subset _ n a ha
      exact of_decide_eq_true (List.mem_filter.mp ha2).2
    · intro hemp
      have hpr : (hashUpdateAsks (hashUpdateAsks book [⟨p, q, e⟩] n) [⟨p, 0, e⟩] n).askPrices =
          recomputeAskPrices
            (hashUpdateAsks (hashUpdateAsks book [⟨p, q, e⟩] n) [⟨p, 0, e⟩] n).asks := rfl
      rw [hashGetBestAsk, hpr, hemp]
      rfl

/-- Witness for zero_quantity_removes_level at p 100, q 10, Binance, depth
10, starting from the empty books of seed scenario S6. -/
theorem zero_quantity_removes_level_witness :
    (0 : ℚ) < 10 ∧
    (∀ b ∈ btreeUpdateBids (btreeUpdateBids [] [⟨100, 10, .Binance⟩] 10)
        [⟨100, 0, .Binance⟩] 10, ¬(b.price = 100 ∧ b.exchange = .Binance)) ∧
    btreeUpdateBids (btreeUpdateBids [] [⟨100, 10, .Binance⟩] 10) [⟨100, 0, .Binance⟩] 10 =
      [] := by
  refine ⟨by decide, ((zero_quantity_removes_level 100 10 .Binance 10 (by decide)).1 []).1,
    by decide⟩

/-- C8 (counterexample): on an update whose bid list is not ordered
best-first, the produced spread (50) differs from best ask price minus best
bid price (150 - 200 = -50): the source subtracts the first levels, not the
best levels, so the claim fails as stated. -/
theorem summary_spread_not_best_levels :
    (processPriceLevelUpdate unsortedUpdate).spread = 50 ∧
    (∃ b ∈ (processPriceLevelUpdate unsortedUpdate).bids, b.price = 200) ∧
    (∀ b ∈ (processPriceLevelUpdate unsortedUpdate).bids, b.price ≤ 200) ∧
    (∃ a ∈ (processPriceLevelUpdate unsortedUpdate).asks, a.price = 150) ∧
    (∀ a ∈ (processPriceLevelUpdate unsortedUpdate).asks, (150 : ℚ) ≤ a.price) ∧
    (150 : ℚ) - 200 ≠ (processPriceLevelUpdate unsortedUpdate).spread := by decide

/-- C8 (amended): every summary produced by process_price_level_update has
spread equal to the price of the first ask it carries minus the price of the
first bid when both sides are non-empty, and spread 0 when either side is
empty; when the update's sides are ordered best-first, the first levels bound
all other levels, so the spread then equals best ask price minus best bid
price. -/
theorem summary_spread_first_levels (u : PriceLevelUpdate) :
    ((u.bids = [] ∨ u.asks = []) → (processPriceLevelUpdate u).spread = 0) ∧
    (∀ bb ba, u.bids.head? = some bb → u.asks.head? = some ba →
      (processPriceLevelUpdate u).spread = ba.price - bb.price ∧
      (u.bids.Pairwise (fun x y => y.price ≤ x.price) →
        u.asks.Pairwise (fun x y => x.price ≤ y.price) →
        (∀ b ∈ u.bids, b.price ≤ bb.price) ∧ (∀ a ∈ u.asks, ba.price ≤ a.price))) := by
  constructor
  · rintro (h | h) <;> simp [processPriceLevelUpdate, h]
  · intro bb ba hbb hba
    constructor
    · simp [processPriceLevelUpdate, hbb, hba]
    · intro hsb hsa
      constructor
      · intro b hb
        cases hu : u.bids with
        | nil => rw [hu] at hbb; exact absurd hbb (by simp)
        | cons x t =>
          rw [hu] at hbb hb hsb
          have hx : x = bb := by
            simp only [List.head?_cons, Option.some.injEq] at hbb
            exact hbb
          subst hx
          rcases List.mem_cons.mp hb with rfl | hmem
          · exact le_refl _
          · exact (List.pairwise_cons.mp hsb).1 b hmem
      · intro a ha
        cases hu : u.asks with
        | nil => rw [hu] at hba; exact absurd hba (by simp)
        | cons x t =>
          rw [hu] at hba ha hsa
          have hx : x = ba := by
            simp only [List.head?_cons, Option.some.injEq] at hba
            exact hba
          subst hx
          rcases List.mem_cons.mp ha with rfl | hmem
          · exact le_refl _
          · exact (List.pairwise_cons.mp hsa).1 a hmem

/-- Witness for summary_spread_first_levels on the sorted venue A update of
seed scenario S1: bids [(49950, 1)], asks [(49951, 1)]. -/
theorem summary_spread_first_levels_witness :
    (processPriceLevelUpdate
        ⟨btcUsdt.render, .Binance, [⟨49950, 1, .Binance⟩], [⟨49951, 1, .Binance⟩]⟩).spread =
      (49951 : ℚ) - 49950 ∧
    (∀ b ∈ (⟨btcUsdt.render, .Binance, [⟨49950, 1, .Binance⟩],
        [⟨49951, 1, .Binance⟩]⟩ : PriceLevelUpdate).bids,
      b.price ≤ (49950 : ℚ)) ∧
    (∀ a ∈ (⟨btcUsdt.render, .Binance, [⟨49950, 1, .Binance⟩],
        [⟨49951, 1, .Binance⟩]⟩ : PriceLevelUpdate).asks,
      (49951 : ℚ) ≤ a.price) := by
  have h := (summary_spread_first_levels
    ⟨btcUsdt.render, .Binance, [⟨49950, 1, .Binance⟩], [⟨49951, 1, .Binance⟩]⟩).2
    ⟨49950, 1, .Binance⟩ ⟨49951, 1, .Binance⟩ (by decide) (by decide)
  exact ⟨h.1, (h.2 (by decide) (by decide)).1, (h.2 (by decide) (by decide)).2⟩

theorem splitOnSlash_of_not_mem (s : List Char) (h : '/' ∉ s) :
    splitOnSlash s = [s] := by
  induction s with
  | nil => rfl
  | cons c rest ih =>
    have hc : ¬ c = '/' := fun hcc => h (by rw [hcc]; exact List.mem_cons_self '/' rest)
    have hrest : '/' ∉ rest := fun hr => h (List.mem_cons_of_mem c hr)
    unfold splitOnSlash
    rw [if_neg hc, ih hrest]

theorem splitOnSlash_append (b q : List Char) (hb : '/' ∉ b) (hq : '/' ∉ q) :
    splitOnSlash (b ++ '/' :: q) = [b, q] := by
  induction b with
  | nil =>
    simp only [List.nil_append]
    unfold splitOnSlash
    rw [if_pos rfl, splitOnSlash_of_not_mem q hq]
  | cons c rest ih =>
    have hc : ¬ c = '/' := fun hcc => hb (by rw [hcc]; exact List.mem_cons_self '/' rest)
    have hrest : '/' ∉ rest := fun hr => hb (List.mem_cons_of_mem c hr)
    simp only [List.cons_append]
    unfold splitOnSlash
    rw [if_neg hc, ih hrest]

/-- C9: Exchange round-trips through its textual form for every variant, and
TradingPair::from_str applied to the Display form BASE/QUOTE of a valid pair
(components free of the separator and already uppercase) returns an equal
pair. -/
theorem roundtrip_parse_render :
    (∀ e : Exchange, Exchange.fromStr (Exchange.name e) = some e) ∧
    (∀ p : TradingPair, '/' ∉ p.base → '/' ∉ p.quote →
      toUpperStr p.base = p.base → toUpperStr p.quote = p.quote →
      TradingPair.fromStr p.render = some p) := by
  constructor
  · intro e
    cases e <;> rfl
  · rintro ⟨base, quote⟩ hb hq hub huq
    unfold TradingPair.fromStr TradingPair.render
    rw [splitOnSlash_append base quote hb hq]
    simp only [TradingPair.mkNew, Option.some.injEq, TradingPair.mk.injEq]
    exact ⟨hub, huq⟩

/-- Witness for roundtrip_parse_render at the Kraken variant and the
BTC/USDT pair. -/
theorem roundtrip_parse_render_witness :
    Exchange.fromStr (Exchange.name .Kraken) = some .Kraken ∧
    TradingPair.fromStr btcUsdt.render = some btcUsdt :=
  ⟨roundtrip_parse_render.1 .Kraken,
    roundtrip_parse_render.2 btcUsdt (by decide) (by decide) (by decide) (by decide)⟩

/-- C10: Aggregator::stop returns a ChannelSend error exactly when no
receiver is subscribed to the shutdown broadcast channel, in particular on a
freshly constructed aggregator, on which start has spawned no task; and in
every case it leaves the summaries, health and metrics maps unchanged. -/
theorem stop_error_iff_no_receivers (c : Config) (s : AggregatorState) :
    ((Aggregator.stop s).1 = Except.error (.channelSend shutdownSendFailure) ↔
      s.shutdownReceivers = 0) ∧
    (Aggregator.stop s).2.summaries = s.summaries ∧
    (Aggregator.stop s).2.healthStatus = s.healthStatus ∧
    (Aggregator.stop s).2.metrics = s.metrics ∧
    (Aggregator.stop (Aggregator.new c)).1 =
      Except.error (.channelSend shutdownSendFailure) := by
  unfold Aggregator.stop Aggregator.new
  by_cases h : s.shutdownReceivers = 0 <;> simp [h]

end AggreGate
